import Mathlib

/-!
# Verification of Nelieo superagent components

Shallow embedding of the parts of the Nelieo-AI repository that the
verified claims are about, together with theorems settling each claim.

Source files embedded here:
* `aios-xpra-app/superagent/computer_use_agent.py`
  (`AntiLoopEngine`, `VisionVerifier`, `AdaptiveTimer`)
* `superagent/enhanced_core.py`
  (`Plan`, `_create_strategic_plan`, the strategic loop of
  `execute_complex_task`, the DONE-verification logic of
  `_execute_tactical_plan`, `_failure_result`)
* `superagent/working_memory.py`
  (`SelfEvolution._learn_from_experience`: Q-update and confidence map)

Machine reals of the Python source are modelled as rationals (`ℚ`);
external library calls (PIL resizing, MD5) are abstracted at the exact
boundary where the source calls them, as noted at each definition.
-/

namespace Nelieo

/-- `xs[-n:]` in Python: the last `n` elements of a list (the whole list
when it is shorter than `n`). -/
def takeLast (n : ℕ) (xs : List α) : List α :=
  xs.drop (xs.length - n)

/-! ## AntiLoopEngine (computer_use_agent.py, lines 173-230)

The engine keeps `history: deque(maxlen=window_size*2)` of strings
`f"{fname}:{args_hash}"`.  `record` appends one such key (the MD5 of the
JSON-encoded arguments is abstracted: a recorded entry is modelled as the
final key string, which is all `is_looping` ever inspects). -/

structure AntiLoopEngine where
  window_size : ℕ
  max_repeats : ℕ
  history : List String
deriving Repr, DecidableEq

/-- Fresh engine: `AntiLoopEngine(window_size=8, max_repeats=3)` with empty
history. -/
def AntiLoopEngine.mk8 : AntiLoopEngine :=
  { window_size := 8, max_repeats := 3, history := [] }

/-- `AntiLoopEngine.record`: append the `"fname:args_hash"` key; the deque
drops the oldest entries beyond `maxlen = window_size * 2`. -/
def AntiLoopEngine.record (e : AntiLoopEngine) (key : String) : AntiLoopEngine :=
  { e with history := takeLast (e.window_size * 2) (e.history ++ [key]) }

/-- `AntiLoopEngine.is_looping`, translated clause by clause:
* `if len(self.history) < self.window_size: return False`
* single-action repeat: `len(set(recent[-self.max_repeats:])) == 1`
* 2-action cycle on `recent[-4:]` when `len(recent) >= 4`
* 3-action cycle on `recent[-6:]` when `len(recent) >= 6`.
`len(set(l)) == 1` is modelled as `l.dedup.length == 1`. -/
def AntiLoopEngine.is_looping (e : AntiLoopEngine) : Bool :=
  if e.history.length < e.window_size then false
  else
    let recent := e.history
    if (takeLast e.max_repeats recent).dedup.length == 1 then true
    else if 4 ≤ recent.length &&
        (match takeLast 4 recent with
         | [a, b, c, d] => a == c && b == d
         | _ => false) then true
    else if 6 ≤ recent.length &&
        (match takeLast 6 recent with
         | [a, b, c, d, e, f] => a == d && b == e && c == f
         | _ => false) then true
    else false

/-- `n` successive `record` calls of the same key, starting from a fresh
window-8 engine. -/
def AntiLoopEngine.feedSame (key : String) : ℕ → AntiLoopEngine
  | 0 => AntiLoopEngine.mk8
  | n + 1 => (AntiLoopEngine.feedSame key n).record key

lemma takeLast_replicate (k m : ℕ) (a : α) :
    takeLast k (List.replicate m a) = List.replicate (min m k) a := by
  simp only [takeLast, List.length_replicate, List.drop_replicate]
  congr 1
  omega

lemma feedSame_window (key : String) (n : ℕ) :
    (AntiLoopEngine.feedSame key n).window_size = 8 ∧
    (AntiLoopEngine.feedSame key n).max_repeats = 3 := by
  induction n with
  | zero => exact ⟨rfl, rfl⟩
  | succ n ih => exact ih

lemma feedSame_history (key : String) (n : ℕ) :
    (AntiLoopEngine.feedSame key n).history = List.replicate (min n 16) key := by
  induction n with
  | zero => rfl
  | succ n ih =>
    simp only [AntiLoopEngine.feedSame, AntiLoopEngine.record, ih,
      (feedSame_window key n).1]
    rw [show List.replicate (min n 16) key ++ [key]
          = List.replicate (min n 16 + 1) key by
        rw [List.replicate_add, List.replicate_one],
      takeLast_replicate]
    congr 1
    omega

/-! ## VisionVerifier (computer_use_agent.py, lines 111-166)

A frame models an already-captured screenshot through the two views the
source derives from it with external PIL calls:
* `small`: the grayscale samples of `image.resize((16,16)).convert("L")`
  (256 values in `0..255`);
* `rgb`: the RGB samples of `image.resize((256,256)).convert("RGB")`
  (65536 triples).

`compute_hash` builds the threshold bit string `"1" if p > avg else "0"`;
the MD5 hexdigest the source takes of that string is injective on it, so
hash equality is modelled as bit-string equality.  The float comparison
`p > sum/len` is exact here as `p * len > sum`. -/

structure Frame where
  small : List ℕ
  rgb : List (ℕ × ℕ × ℕ)

/-- `VisionVerifier.compute_hash`: per-pixel threshold against the mean. -/
def compute_hash (f : Frame) : List Bool :=
  f.small.map fun p => decide (p * f.small.length > f.small.sum)

/-- Per-channel absolute difference, `ImageChops.difference` at one channel. -/
def absDiff (x y : ℕ) : ℕ := max x y - min x y

/-- Summed channel delta of one pixel of the difference image. -/
def pixelDist (p q : ℕ × ℕ × ℕ) : ℕ :=
  absDiff p.1 q.1 + absDiff p.2.1 q.2.1 + absDiff p.2.2 q.2.2

/-- `changed = sum(1 for r, g, b in pixels if r + g + b > 30)`. -/
def changedCount (before after : Frame) : ℕ :=
  ((List.zipWith pixelDist before.rgb after.rgb).filter fun d => decide (30 < d)).length

/-- `ratio = changed / len(pixels)`.  (`len(pixels)` is 65536 for real
frames; the source would raise `ZeroDivisionError` on an empty pixel
list, which resizing makes unreachable.) -/
def diffRatio (before after : Frame) : ℚ :=
  (changedCount before after : ℚ) / ((List.zipWith pixelDist before.rgb after.rgb).length : ℚ)

/-- `VisionVerifier.screen_changed` on the stuck-counter state: returns the
boolean result and the new `_stuck_count`.  Matching hashes return `False`
immediately (incrementing the counter); only differing hashes reach the
256×256 pixel diff, where `ratio < threshold` also returns `False`;
otherwise the counter resets and the result is `True`. -/
def screen_changed (threshold : ℚ) (stuck : ℕ) (before after : Frame) : Bool × ℕ :=
  if compute_hash before == compute_hash after then (false, stuck + 1)
  else if diffRatio before after < threshold then (false, stuck + 1)
  else (true, 0)

/-- Frame whose 16×16 view has a single bright pixel and whose 256×256 view
is uniformly black. -/
def frameDot : Frame :=
  { small := 1 :: List.replicate 255 0, rgb := List.replicate 65536 (0, 0, 0) }

/-- Uniformly black frame. -/
def frameBlack : Frame :=
  { small := List.replicate 256 0, rgb := List.replicate 65536 (0, 0, 0) }

lemma changedCount_same_rgb (b a : Frame) (h : b.rgb = a.rgb) :
    changedCount b a = 0 := by
  have hz : List.zipWith pixelDist b.rgb a.rgb
      = b.rgb.map fun p => pixelDist p p := by
    rw [h, List.zipWith_same]
  have hself : ∀ p : ℕ × ℕ × ℕ, pixelDist p p = 0 := by
    intro p; simp [pixelDist, absDiff]
  simp [changedCount, hz, List.filter_map, Function.comp, hself]

/-! ## SelfEvolution (working_memory.py, lines 344, 486-517)

`_learn_from_experience` performs the Q-update
`new_q = current_q + self.LEARNING_RATE * (exp.reward - current_q)` with
`LEARNING_RATE = 0.1`, and the confidence-calibration update
`new_conf = old_conf * 0.9 + success_signal * 0.1` where the old value is
`self.confidence_map.get(conf_key, 0.5)` and the signal is
`1.0 if exp.success else 0.0`.  Floats are modelled as rationals. -/

def LEARNING_RATE : ℚ := 1/10

/-- One Q-learning update of `_learn_from_experience`. -/
def qUpdate (current_q reward : ℚ) : ℚ :=
  current_q + LEARNING_RATE * (reward - current_q)

/-- `n` repeated updates with the same reward. -/
def qIter (q reward : ℚ) : ℕ → ℚ
  | 0 => q
  | n + 1 => qUpdate (qIter q reward n) reward

lemma qIter_closed (q r : ℚ) (n : ℕ) :
    r - qIter q r n = (9/10) ^ n * (r - q) := by
  induction n with
  | zero => simp [qIter]
  | succ n ih =>
    have hstep : r - qUpdate (qIter q r n) r = (9/10) * (r - qIter q r n) := by
      unfold qUpdate LEARNING_RATE; ring
    rw [qIter, hstep, ih, pow_succ]; ring

lemma qIter_dist (q r : ℚ) (n : ℕ) :
    |r - qIter q r n| = (9/10) ^ n * |r - q| := by
  rw [qIter_closed, abs_mul, abs_pow, abs_of_nonneg (by norm_num : (0:ℚ) ≤ 9/10)]

/-- `success_signal = 1.0 if exp.success else 0.0`. -/
def successSignal (success : Bool) : ℚ := if success then 1 else 0

/-- `new_conf = old_conf * 0.9 + success_signal * 0.1`. -/
def confUpdate (old : ℚ) (success : Bool) : ℚ :=
  old * (9/10) + successSignal success * (1/10)

/-- The confidence map; `none` for keys that were never assigned. -/
def ConfMap : Type := String → Option ℚ

/-- `self.confidence_map = {}` initially. -/
def emptyConfMap : ConfMap := fun _ => none

/-- `self.confidence_map.get(conf_key, 0.5)`. -/
def lookupConf (m : ConfMap) (k : String) : ℚ := (m k).getD (1/2)

/-- The effect of one `record_experience` call on `confidence_map`
(`self.confidence_map[conf_key] = new_conf`), abstracting the conf key
`f"{exp.platform}|{action_type}"` to the given string. -/
def recordConf (m : ConfMap) (k : String) (success : Bool) : ConfMap :=
  fun q => if q = k then some (confUpdate (lookupConf m k) success) else m q

/-- A whole sequence of `record_experience` calls from a fresh map. -/
def recordAll (events : List (String × Bool)) : ConfMap :=
  events.foldl (fun m e => recordConf m e.1 e.2) emptyConfMap

lemma confUpdate_mem_unit (old : ℚ) (success : Bool)
    (h0 : 0 ≤ old) (h1 : old ≤ 1) :
    0 ≤ confUpdate old success ∧ confUpdate old success ≤ 1 := by
  unfold confUpdate successSignal
  cases success <;> simp <;> constructor <;> nlinarith

lemma recordConf_preserves (m : ConfMap)
    (hm : ∀ k v, m k = some v → 0 ≤ v ∧ v ≤ 1) (k : String) (s : Bool) :
    ∀ q v, recordConf m k s q = some v → 0 ≤ v ∧ v ≤ 1 := by
  intro q v hq
  unfold recordConf at hq
  by_cases hqk : q = k
  · rw [if_pos hqk] at hq
    have hold : 0 ≤ lookupConf m k ∧ lookupConf m k ≤ 1 := by
      unfold lookupConf
      cases hmk : m k with
      | none => norm_num
      | some w => simpa using hm k w hmk
    have := confUpdate_mem_unit (lookupConf m k) s hold.1 hold.2
    cases hq
    exact this
  · rw [if_neg hqk] at hq
    exact hm q v hq

lemma foldl_recordConf_preserves (events : List (String × Bool)) :
    ∀ m : ConfMap, (∀ k v, m k = some v → 0 ≤ v ∧ v ≤ 1) →
      ∀ k v, (events.foldl (fun m e => recordConf m e.1 e.2) m) k = some v →
        0 ≤ v ∧ v ≤ 1 := by
  induction events with
  | nil => intro m hm k v h; exact hm k v h
  | cons e es ih =>
    intro m hm k v h
    exact ih (recordConf m e.1 e.2) (recordConf_preserves m hm e.1 e.2) k v h

/-! ## AdaptiveTimer (computer_use_agent.py, lines 234-280)

`get_wait` is modelled on the per-action sample list (`self.action_times`
maps an action to its recorded durations; a missing key behaves as the
empty list, making `action in self.action_times and len(...) >= 3` the
single length test). -/

/-- `self.base_waits.get(action, 1.0)`: the fixed baseline table. -/
def base_waits (action : String) : ℚ :=
  if action = "navigate" then 6
  else if action = "click_at" then 1/2
  else if action = "type_text_at" then 3/10
  else if action = "key_combination" then 3/10
  else if action = "scroll_document" then 3/10
  else if action = "scroll_at" then 3/10
  else if action = "open_web_browser" then 1
  else if action = "wait_5_seconds" then 5
  else if action = "go_back" then 2
  else if action = "go_forward" then 2
  else if action = "search" then 3
  else if action = "hover_at" then 1/5
  else if action = "drag_and_drop" then 1/2
  else 1

/-- The keys of `base_waits`. -/
def base_waits_keys : List String :=
  ["navigate", "click_at", "type_text_at", "key_combination",
   "scroll_document", "scroll_at", "open_web_browser", "wait_5_seconds",
   "go_back", "go_forward", "search", "hover_at", "drag_and_drop"]

/-- Ascending insertion, for Python's `sorted`. -/
def insertAsc (x : ℚ) : List ℚ → List ℚ
  | [] => [x]
  | y :: ys => if x ≤ y then x :: y :: ys else y :: insertAsc x ys

/-- `sorted(self.action_times[action])`. -/
def sortAsc : List ℚ → List ℚ
  | [] => []
  | x :: xs => insertAsc x (sortAsc xs)

/-- `p80_idx = int(len(times) * 0.8)`.  The float product `n * 0.8`
truncates to `⌊4n/5⌋` for every list length that can occur (the sample
lists are capped at 20 entries by `record`). -/
def p80Idx (n : ℕ) : ℕ := 4 * n / 5

/-- The 80th-percentile sample as the source computes it:
`sorted(times)[int(len(times) * 0.8)]`. -/
def p80 (times : List ℚ) : ℚ := (sortAsc times).getD (p80Idx times.length) 0

/-- `AdaptiveTimer.get_wait` on the sample list recorded for `action`. -/
def get_wait (times : List ℚ) (action : String) : ℚ :=
  let base := base_waits action
  if 3 ≤ times.length then
    let sorted := sortAsc times
    let learned := sorted.getD (p80Idx times.length) 0 + 1/2
    max base learned
  else base

/-! ## Plan (enhanced_core.py, lines 40-60) -/

inductive PlanLevel where
  | strategic | tactical | operational
deriving Repr, DecidableEq

/-- The `Plan` dataclass (`current_step` defaults to 0 at construction). -/
structure Plan where
  goal : String
  level : PlanLevel
  steps : List String
  current_step : ℕ := 0
  confidence : ℚ := 0
  estimated_actions : ℕ := 0
  verification_points : List String := []
deriving Repr, DecidableEq

/-- `Plan.next_step`: return the current step and advance the cursor, or
`None` past the end. -/
def Plan.next_step (p : Plan) : Option String × Plan :=
  if h : p.current_step < p.steps.length then
    (some (p.steps.get ⟨p.current_step, h⟩),
      { p with current_step := p.current_step + 1 })
  else (none, p)

/-- `Plan.is_complete`: `self.current_step >= len(self.steps)`. -/
def Plan.is_complete (p : Plan) : Bool :=
  p.steps.length ≤ p.current_step

/-- The plan after `n` calls of `next_step`. -/
def Plan.iterate (p : Plan) : ℕ → Plan
  | 0 => p
  | n + 1 => (Plan.iterate p n).next_step.2

lemma next_step_mono (p : Plan) :
    p.current_step ≤ p.next_step.2.current_step ∧ p.next_step.2.steps = p.steps := by
  unfold Plan.next_step
  split <;> simp

lemma next_step_bound (p : Plan) (h : p.current_step ≤ p.steps.length) :
    p.next_step.2.current_step ≤ p.next_step.2.steps.length := by
  unfold Plan.next_step
  split <;> simp <;> omega

lemma iterate_invariant (p : Plan) (h : p.current_step ≤ p.steps.length) (n : ℕ) :
    (Plan.iterate p n).steps = p.steps ∧
    (Plan.iterate p n).current_step ≤ p.steps.length := by
  induction n with
  | zero => exact ⟨rfl, h⟩
  | succ n ih =>
    have hs := next_step_mono (Plan.iterate p n)
    have hb := next_step_bound (Plan.iterate p n) (ih.1 ▸ ih.2)
    exact ⟨hs.2.trans ih.1, by rw [← ih.1, ← hs.2] at *; exact hb⟩

/-! ## Strategic planning (enhanced_core.py, lines 712-845)

Python string primitives are modelled on the character lists of Lean
strings: `lowerStr` is `str.lower`, `containsSub` is the `in` substring
test, `splitOnce` is `str.split(sep, 1)` for non-empty `sep` (split at the
leftmost occurrence), and `stripStr` is `str.strip()`. -/

def lowerStr (s : String) : String := ⟨s.data.map Char.toLower⟩

def containsSub (s sub : String) : Bool :=
  (List.range (s.data.length + 1)).any fun i => sub.data.isPrefixOf (s.data.drop i)

def splitOnce (s sep : String) : List String :=
  match (List.range (s.data.length + 1)).find?
      (fun i => sep.data.isPrefixOf (s.data.drop i)) with
  | none => [s]
  | some i => [⟨s.data.take i⟩, ⟨s.data.drop (i + sep.data.length)⟩]

def stripStr (s : String) : String :=
  ⟨((s.data.dropWhile Char.isWhitespace).reverse.dropWhile Char.isWhitespace).reverse⟩

/-- The sequencing keywords of `_create_strategic_plan` (the same list is
used for the `has_multiple_goals` test and the splitting loop). -/
def multi_goal_keywords : List String :=
  [" then ", " and then ", " after that ", " afterwards ", " next "]

/-- One iteration of the splitting loop over the keywords: split
`remaining` once at the keyword (the membership test is on the lowercased
text, the split on the original), append the stripped head to `steps` when
non-empty, and continue with the stripped tail (or `""`). -/
def splitStep (acc : List String × String) (keyword : String) :
    List String × String :=
  let steps := acc.1
  let remaining := acc.2
  if containsSub (lowerStr remaining) keyword then
    let parts := splitOnce remaining keyword
    let steps :=
      if stripStr (parts.headD "") ≠ "" then steps ++ [stripStr (parts.headD "")]
      else steps
    let remaining := if 1 < parts.length then stripStr (parts.getD 1 "") else ""
    (steps, remaining)
  else acc

/-- The goal list the deterministic split produces (appending the final
non-empty `remaining`). -/
def splitGoals (task : String) : List String :=
  let acc := multi_goal_keywords.foldl splitStep ([], task)
  if acc.2 ≠ "" then acc.1 ++ [acc.2] else acc.1

/-- A truthy oracle reply carrying a `'steps'` entry; `confidence`,
`estimated_actions` and `verification_points` may be absent
(`result.get(..., default)`). -/
structure OraclePlan where
  steps : List String
  confidence : Option ℚ
  estimated_actions : Option ℕ
  verification_points : Option (List String)

/-- `_create_strategic_plan`.  `oracle` is the outcome of the try-block
tail (screenshot capture plus `analyze_with_vision_api`): `.error` when it
raised — the `except` branch returns `None` — `.ok none` when the call
returned a falsy result or one without `'steps'` — the fallback single-goal
plan with confidence 0.5 — and `.ok (some r)` otherwise. -/
def create_strategic_plan (task : String)
    (oracle : Except Unit (Option OraclePlan)) : Option Plan :=
  let task_lower := lowerStr task
  let has_multiple_goals := multi_goal_keywords.any fun k => containsSub task_lower k
  let steps := splitGoals task
  if has_multiple_goals && decide (2 ≤ steps.length) then
    some { goal := task, level := .strategic, steps := steps,
           confidence := 9/10, estimated_actions := steps.length * 8 }
  else
    match oracle with
    | .error _ => none
    | .ok (some r) =>
        some { goal := task, level := .strategic, steps := r.steps,
               confidence := r.confidence.getD (7/10),
               estimated_actions := r.estimated_actions.getD 20,
               verification_points := r.verification_points.getD [] }
    | .ok none =>
        some { goal := task, level := .strategic, steps := [task],
               confidence := 1/2, estimated_actions := 10 }

/-! ## The strategic loop of `execute_complex_task`
(enhanced_core.py, lines 619-707, 1967-1992) -/

/-- The outcome dictionary, restricted to the fields the claims are about. -/
structure TaskResult where
  success : Bool
  actions_taken : ℕ
  error : Option String
deriving Repr, DecidableEq

/-- `_failure_result(task, start_time, actions_taken, error)`:
`success: False`, `actions_taken: len(actions_taken)`, `error`. -/
def failure_result (actions : ℕ) (error : String) : TaskResult :=
  { success := false, actions_taken := actions, error := some error }

/-- The strategic `while` loop.  State is the plan plus the length of
`actions_taken`; `body` abstracts one iteration's tactical planning and
execution (everything below the cancellation check); `fuel` is the
remaining iteration budget `max_iterations - iteration`.  Each pass checks
the `while` condition (`not is_complete() and iteration < max_iterations`),
then polls `self.force_stop` and returns the `Cancelled` failure result
immediately when it is set.  (The timeout check that follows is not
modelled; `.ok` is the state in which the loop was left to the post-loop
code.) -/
def strategicLoop (force_stop : Bool) (body : Plan × ℕ → Plan × ℕ) :
    ℕ → Plan × ℕ → Except TaskResult (Plan × ℕ)
  | 0, s => .ok s
  | fuel + 1, (plan, actions) =>
      if plan.is_complete then .ok (plan, actions)
      else if force_stop then .error (failure_result actions "Cancelled")
      else strategicLoop force_stop body fuel (body (plan, actions))

/-! ## DONE verification in `_execute_tactical_plan`
(enhanced_core.py, lines 1013-1056) -/

/-- A verification oracle reply; `confidence` defaults to 0 and
`observation` to `''` when absent. -/
structure VerifyResult where
  confidence : Option ℚ
  observation : Option String

def success_keywords : List String :=
  ["complete", "success", "done", "fulfill", "achieve", "ready", "loaded",
   "display", "showing", "visible", "open", "navigated"]

/-- The acceptance decision when the decided action is DONE: returns
`(is_verified, oracle_called)`.  With `last_confidence > 0.9` verification
is skipped and completion accepted; otherwise the second oracle call is
made (`verify` is its reply, `none` for a falsy one) and completion is
accepted iff `confidence >= 0.8`, or `confidence >= 0.7` together with a
success keyword in the lowercased observation. -/
def doneVerification (last_confidence : ℚ) (verify : Option VerifyResult) :
    Bool × Bool :=
  if 9/10 < last_confidence then (true, false)
  else
    match verify with
    | none => (false, true)
    | some v =>
        let confidence := v.confidence.getD 0
        let observation := lowerStr (v.observation.getD "")
        let has_success_keyword :=
          success_keywords.any fun kw => containsSub observation kw
        if 8/10 ≤ confidence then (true, true)
        else if 7/10 ≤ confidence && has_success_keyword then (true, true)
        else (false, true)

end Nelieo

/-- C1 counterexample: three identical entries fed to a fresh window-8
engine leave the history at length 3 < 8, so `is_looping` returns `false`,
contradicting the claim that it reports a single-action loop. -/
theorem C1_counterexample :
    (Nelieo.AntiLoopEngine.feedSame "click_at:ab12cd34" 3).is_looping = false := by
  decide

/-- C1 (amended): with window size 8 and maxRepeats 3, identical
(action-kind, argument-hash) entries cause `is_looping` to report a
single-action loop only once the history holds at least `window_size = 8`
entries; in particular feeding `n ≥ 8` identical entries to a freshly
constructed engine reports the loop (3 entries alone do not, since the
history is still below the window size). -/
theorem C1_amended (key : String) (n : ℕ) (h : 8 ≤ n) :
    (Nelieo.AntiLoopEngine.feedSame key n).is_looping = true := by
  have hw := Nelieo.feedSame_window key n
  have hh := Nelieo.feedSame_history key n
  unfold Nelieo.AntiLoopEngine.is_looping
  rw [hw.1, hw.2, hh]
  have h3 : min (min n 16) 3 = 3 := by omega
  have hd : (List.replicate 3 key).dedup = [key] := List.replicate_dedup (by omega)
  have hL : ¬ (List.replicate (min n 16) key).length < 8 := by
    simp only [List.length_replicate]; omega
  rw [if_neg hL]
  simp [Nelieo.takeLast_replicate, h3, hd]

/-- C1 witness for the amended theorem at `n = 8`. -/
theorem C1_witness :
    (8 : ℕ) ≤ 8 ∧
      (Nelieo.AntiLoopEngine.feedSame "click_at:ab12cd34" 8).is_looping = true :=
  ⟨le_refl 8, C1_amended "click_at:ab12cd34" 8 (le_refl 8)⟩

set_option maxRecDepth 8000 in
/-- C2 counterexample: the frames `frameDot` and `frameBlack` have
different 16×16 perceptual hashes, yet `screen_changed` (threshold 0.02,
stuck counter 0) returns `false` and increments the stuck counter to 1,
because their 256×256 views are identical and the pixel-diff ratio 0 is
below the threshold — contradicting the claim that differing hashes always
yield `true` with a counter reset. -/
theorem C2_counterexample :
    Nelieo.compute_hash Nelieo.frameDot ≠ Nelieo.compute_hash Nelieo.frameBlack ∧
    Nelieo.screen_changed (1/50) 0 Nelieo.frameDot Nelieo.frameBlack = (false, 1) := by
  have hne : (Nelieo.compute_hash Nelieo.frameDot
      == Nelieo.compute_hash Nelieo.frameBlack) = false := by decide
  refine ⟨by simpa using hne, ?_⟩
  have h0 : Nelieo.diffRatio Nelieo.frameDot Nelieo.frameBlack = 0 := by
    unfold Nelieo.diffRatio
    rw [Nelieo.changedCount_same_rgb Nelieo.frameDot Nelieo.frameBlack rfl]
    simp
  simp [Nelieo.screen_changed, hne, h0]

/-- C2 (amended): `screen_changed` returns `false` (incrementing the stuck
counter) whenever the 16×16 hashes match; the 256×256 pixel-diff check is
reached only when the hashes differ, and the call returns `true` with the
stuck counter reset to 0 exactly when the hashes differ and the pixel-diff
ratio is at least the threshold, returning `false` with the counter
incremented otherwise. -/
theorem C2_amended (th : ℚ) (st : ℕ) (b a : Nelieo.Frame)
    (_hpix : (List.zipWith Nelieo.pixelDist b.rgb a.rgb).length ≠ 0) :
    Nelieo.screen_changed th st b a =
      if Nelieo.compute_hash b ≠ Nelieo.compute_hash a ∧ th ≤ Nelieo.diffRatio b a
      then (true, 0) else (false, st + 1) := by
  unfold Nelieo.screen_changed
  by_cases h1 : Nelieo.compute_hash b = Nelieo.compute_hash a
  · simp [h1]
  · by_cases h2 : Nelieo.diffRatio b a < th
    · simp [h1, h2, not_le.mpr h2]
    · simp [h1, h2, not_lt.mp h2]

/-- C2 witness: the amended characterization applied to the concrete frames
`frameDot` and `frameBlack` (non-empty pixel list). -/
theorem C2_witness :
    (List.zipWith Nelieo.pixelDist Nelieo.frameDot.rgb Nelieo.frameBlack.rgb).length ≠ 0 ∧
    Nelieo.screen_changed (1/50) 0 Nelieo.frameDot Nelieo.frameBlack =
      (if Nelieo.compute_hash Nelieo.frameDot ≠ Nelieo.compute_hash Nelieo.frameBlack ∧
          (1/50 : ℚ) ≤ Nelieo.diffRatio Nelieo.frameDot Nelieo.frameBlack
       then (true, 0) else (false, 0 + 1)) :=
  ⟨by simp only [Nelieo.frameDot, Nelieo.frameBlack, List.length_zipWith,
      List.length_replicate]; decide,
   C2_amended (1/50) 0 Nelieo.frameDot Nelieo.frameBlack
     (by simp only [Nelieo.frameDot, Nelieo.frameBlack, List.length_zipWith,
        List.length_replicate]; decide)⟩

/-- C6: the Q-learning update `Q ← Q + 0.1 * (reward - Q)` of
`_learn_from_experience` sends `Q = 0, reward = 1` to exactly `0.1`, and
for every starting `Q` and fixed reward `r`, repeated identical-reward
updates shrink the distance to `r` at every step, keep `Q` between the
start value and `r` (never overshooting `r`), and move `Q` weakly
monotonically in the direction of `r`. -/
theorem C6_q_update :
    Nelieo.qUpdate 0 1 = 1/10 ∧
    ∀ (q r : ℚ) (n : ℕ),
      |r - Nelieo.qIter q r (n + 1)| ≤ |r - Nelieo.qIter q r n| ∧
      min q r ≤ Nelieo.qIter q r n ∧
      Nelieo.qIter q r n ≤ max q r ∧
      0 ≤ (Nelieo.qIter q r (n + 1) - Nelieo.qIter q r n) * (r - q) := by
  constructor
  · unfold Nelieo.qUpdate Nelieo.LEARNING_RATE; norm_num
  · intro q r n
    have hc := Nelieo.qIter_closed q r n
    have hc1 := Nelieo.qIter_closed q r (n + 1)
    have hpow : (0:ℚ) < (9/10) ^ n := by positivity
    have hpow1 : ((9:ℚ)/10) ^ n ≤ 1 :=
      pow_le_one₀ (by norm_num) (by norm_num)
    refine ⟨?_, ?_, ?_, ?_⟩
    · rw [Nelieo.qIter_dist, Nelieo.qIter_dist]
      have hle : ((9:ℚ)/10) ^ (n + 1) ≤ (9/10) ^ n :=
        pow_le_pow_of_le_one (by norm_num) (by norm_num) (Nat.le_succ n)
      exact mul_le_mul_of_nonneg_right hle (abs_nonneg _)
    · rcases le_total q r with h | h
      · rw [min_eq_left h]; nlinarith
      · rw [min_eq_right h]; nlinarith
    · rcases le_total q r with h | h
      · rw [max_eq_right h]; nlinarith
      · rw [max_eq_left h]; nlinarith
    · rw [pow_succ] at hc1
      have key : (Nelieo.qIter q r (n + 1) - Nelieo.qIter q r n) * (r - q)
          = (1/10) * ((9/10) ^ n * (r - q) ^ 2) := by
        have e0 : Nelieo.qIter q r n = r - (9/10) ^ n * (r - q) := by linarith
        have e1 : Nelieo.qIter q r (n + 1)
            = r - (9/10) ^ n * (9/10) * (r - q) := by linarith
        rw [e0, e1]; ring
      rw [key]; positivity

/-- C10: after any sequence of `record_experience` calls, every value
stored in `SelfEvolution.confidence_map` lies in `[0, 1]`: each update
replaces the old value (defaulting to 0.5) by `0.9 * old + 0.1 * signal`
with the signal in `{0, 1}`, which never leaves the unit interval. -/
theorem C10_confidence_bounds (events : List (String × Bool)) (k : String)
    (v : ℚ) (h : Nelieo.recordAll events k = some v) : 0 ≤ v ∧ v ≤ 1 :=
  Nelieo.foldl_recordConf_preserves events Nelieo.emptyConfMap
    (fun _ _ hv => by simp [Nelieo.emptyConfMap] at hv) k v h

/-- C10 witness: one successful experience on a fresh map stores
`0.9 * 0.5 + 0.1 = 0.55`, which the theorem places in `[0, 1]`. -/
theorem C10_witness :
    Nelieo.recordAll [("chrome|click_at", true)] "chrome|click_at"
      = some (11/20) ∧ (0 ≤ (11/20 : ℚ) ∧ (11/20 : ℚ) ≤ 1) := by
  have h : Nelieo.recordAll [("chrome|click_at", true)] "chrome|click_at"
      = some (11/20) := by
    simp [Nelieo.recordAll, Nelieo.recordConf, Nelieo.lookupConf,
      Nelieo.emptyConfMap, Nelieo.confUpdate, Nelieo.successSignal]
    norm_num
  exact ⟨h, C10_confidence_bounds [("chrome|click_at", true)] "chrome|click_at" (11/20) h⟩

/-- C8: `get_wait` returns the configured baseline with fewer than 3
samples (and the baseline of a kind absent from the table is 1.0); with 3
or more samples it returns `max (baseline, p80 + 0.5)` for the code's
80th-percentile sample, and for the samples `[1,1,1,1,5]` (whose p80
sample is 5) the result is at least that percentile plus 0.5. -/
theorem C8_get_wait :
    (∀ (action : String) (times : List ℚ), times.length < 3 →
       Nelieo.get_wait times action = Nelieo.base_waits action) ∧
    (∀ action : String, action ∉ Nelieo.base_waits_keys →
       Nelieo.base_waits action = 1) ∧
    (∀ (action : String) (times : List ℚ), 3 ≤ times.length →
       Nelieo.get_wait times action
         = max (Nelieo.base_waits action) (Nelieo.p80 times + 1/2)) ∧
    Nelieo.p80 [1, 1, 1, 1, 5] = 5 ∧
    (∀ action : String,
       Nelieo.p80 [1, 1, 1, 1, 5] + 1/2 ≤ Nelieo.get_wait [1, 1, 1, 1, 5] action) := by
  have hp80 : Nelieo.p80 [1, 1, 1, 1, 5] = 5 := by
    norm_num [Nelieo.p80, Nelieo.sortAsc, Nelieo.insertAsc, Nelieo.p80Idx]
  have hge3 : ∀ (action : String) (times : List ℚ), 3 ≤ times.length →
      Nelieo.get_wait times action
        = max (Nelieo.base_waits action) (Nelieo.p80 times + 1/2) := by
    intro action times h
    simp only [Nelieo.get_wait, Nelieo.p80, if_pos h]
  refine ⟨?_, ?_, hge3, hp80, ?_⟩
  · intro action times h
    simp only [Nelieo.get_wait]
    rw [if_neg (show ¬ 3 ≤ times.length by omega)]
  · intro action h
    simp only [Nelieo.base_waits_keys, List.mem_cons, List.not_mem_nil,
      or_false, not_or] at h
    obtain ⟨h1, h2, h3, h4, h5, h6, h7, h8, h9, h10, h11, h12, h13⟩ := h
    simp only [Nelieo.base_waits, if_neg h1, if_neg h2, if_neg h3, if_neg h4,
      if_neg h5, if_neg h6, if_neg h7, if_neg h8, if_neg h9, if_neg h10,
      if_neg h11, if_neg h12, if_neg h13]
  · intro action
    rw [hge3 action [1, 1, 1, 1, 5] (by norm_num)]
    exact le_max_right _ _

/-- C8 witness: the hypotheses of each quantified conjunct discharged at
concrete inputs (`click_at` with no samples, a kind outside the table, and
the 5-sample list `[1,1,1,1,5]`). -/
theorem C8_witness :
    (([] : List ℚ).length < 3 ∧
       Nelieo.get_wait [] "click_at" = Nelieo.base_waits "click_at") ∧
    ("take_screenshot" ∉ Nelieo.base_waits_keys ∧
       Nelieo.base_waits "take_screenshot" = 1) ∧
    (3 ≤ ([1, 1, 1, 1, 5] : List ℚ).length ∧
       Nelieo.get_wait [1, 1, 1, 1, 5] "click_at"
         = max (Nelieo.base_waits "click_at") (Nelieo.p80 [1, 1, 1, 1, 5] + 1/2)) :=
  ⟨⟨by norm_num, C8_get_wait.1 "click_at" [] (by norm_num)⟩,
   ⟨by decide, C8_get_wait.2.1 "take_screenshot" (by decide)⟩,
   ⟨by norm_num, C8_get_wait.2.2.1 "click_at" [1, 1, 1, 1, 5] (by norm_num)⟩⟩

/-- C9: over any sequence of `next_step()` calls the cursor
(`current_step`) never decreases and the steps list never changes, and —
for any plan whose cursor starts within bounds, as every constructed plan
does with its default cursor 0 — `is_complete()` holds exactly when the
cursor equals `len(steps)`. -/
theorem C9_plan_cursor (p : Nelieo.Plan) (n : ℕ)
    (h : p.current_step ≤ p.steps.length) :
    (Nelieo.Plan.iterate p n).current_step
        ≤ (Nelieo.Plan.iterate p (n + 1)).current_step ∧
    (Nelieo.Plan.iterate p n).steps = p.steps ∧
    ((Nelieo.Plan.iterate p n).is_complete = true ↔
       (Nelieo.Plan.iterate p n).current_step = p.steps.length) := by
  have hinv := Nelieo.iterate_invariant p h n
  refine ⟨(Nelieo.next_step_mono (Nelieo.Plan.iterate p n)).1, hinv.1, ?_⟩
  unfold Nelieo.Plan.is_complete
  rw [hinv.1]
  constructor
  · intro hc
    have := of_decide_eq_true hc
    omega
  · intro hc
    exact decide_eq_true (by omega)

/-- C7: for the task `"open mail then open calendar"` the deterministic
keyword split produces exactly the two goals `["open mail",
"open calendar"]` (confidence 0.9), and the returned plan is the same for
every oracle outcome — the oracle is never consulted. -/
theorem C7_deterministic_split :
    ∀ oracle : Except Unit (Option Nelieo.OraclePlan),
      Nelieo.create_strategic_plan "open mail then open calendar" oracle
        = some { goal := "open mail then open calendar",
                 level := Nelieo.PlanLevel.strategic,
                 steps := ["open mail", "open calendar"],
                 confidence := 9/10,
                 estimated_actions := 16 } :=
  fun _ => rfl

/-- C3 counterexample: when the oracle call raises during strategic
planning of the keyword-free task `"open mail"`, `_create_strategic_plan`
returns `None` (upon which `execute_complex_task` fails the task with
`"Failed to create strategic plan"`), not the claimed single-goal
fallback plan. -/
theorem C3_counterexample :
    Nelieo.create_strategic_plan "open mail" (Except.error ()) = none :=
  rfl

/-- C3 (amended): for a task the deterministic split does not catch, a
*non-raising* oracle call that yields no usable steps makes
`_create_strategic_plan` return the single-goal plan whose steps are
exactly the whole task with confidence 0.5; but when the oracle call
raises, the function returns `None` and the task fails instead. -/
theorem C3_amended (task : String)
    (h : (Nelieo.multi_goal_keywords.any fun k =>
            Nelieo.containsSub (Nelieo.lowerStr task) k) = false) :
    Nelieo.create_strategic_plan task (Except.ok none)
      = some { goal := task, level := Nelieo.PlanLevel.strategic,
               steps := [task], confidence := 1/2, estimated_actions := 10 } ∧
    Nelieo.create_strategic_plan task (Except.error ()) = none := by
  refine ⟨?_, ?_⟩ <;> simp [Nelieo.create_strategic_plan, h]

/-- C3 witness: the amended behaviour at the keyword-free task
`"open mail"`. -/
theorem C3_witness :
    (Nelieo.multi_goal_keywords.any fun k =>
       Nelieo.containsSub (Nelieo.lowerStr "open mail") k) = false ∧
    (Nelieo.create_strategic_plan "open mail" (Except.ok none)
       = some { goal := "open mail", level := Nelieo.PlanLevel.strategic,
                steps := ["open mail"], confidence := 1/2,
                estimated_actions := 10 } ∧
     Nelieo.create_strategic_plan "open mail" (Except.error ()) = none) :=
  ⟨by decide, C3_amended "open mail" (by decide)⟩

/-- C4: with the cancellation flag set, any strategic-loop iteration that
is still within its iteration budget and whose plan is not complete
returns the `Cancelled` failure result immediately (the flag is polled at
the top of every iteration, before the abstracted body runs), carrying the
current `actions_taken` count; that result has `success = false` and
`error = "Cancelled"`, and starting from the empty action list the count
is 0. -/
theorem C4_cancellation (body : Nelieo.Plan × ℕ → Nelieo.Plan × ℕ)
    (fuel : ℕ) (plan : Nelieo.Plan) (actions : ℕ)
    (hfuel : 0 < fuel) (hplan : plan.is_complete = false) :
    Nelieo.strategicLoop true body fuel (plan, actions)
        = Except.error (Nelieo.failure_result actions "Cancelled") ∧
    (Nelieo.failure_result actions "Cancelled").success = false ∧
    (Nelieo.failure_result actions "Cancelled").error = some "Cancelled" ∧
    (Nelieo.failure_result 0 "Cancelled").actions_taken = 0 := by
  obtain ⟨fuel, rfl⟩ : ∃ f, fuel = f + 1 :=
    ⟨fuel - 1, by omega⟩
  refine ⟨?_, rfl, rfl, rfl⟩
  unfold Nelieo.strategicLoop
  rw [hplan]
  simp

/-- C4 witness: a cancelled one-goal plan at the start of the loop (full
fuel 50, empty action list). -/
theorem C4_witness :
    (0 < 50 ∧
       (Nelieo.Plan.is_complete
         { goal := "open mail", level := Nelieo.PlanLevel.strategic,
           steps := ["open mail"] }) = false) ∧
    Nelieo.strategicLoop true id 50
        ({ goal := "open mail", level := Nelieo.PlanLevel.strategic,
           steps := ["open mail"] }, 0)
      = Except.error (Nelieo.failure_result 0 "Cancelled") :=
  ⟨⟨by norm_num, by decide⟩,
   (C4_cancellation id 50
     { goal := "open mail", level := Nelieo.PlanLevel.strategic,
       steps := ["open mail"] } 0 (by norm_num) (by decide)).1⟩

/-- C5: when the decided action is DONE, the second oracle verification
query is skipped exactly when the last action's self-reported confidence
exceeds 0.9 (and completion is then accepted); otherwise completion is
accepted exactly when the oracle replied and its confidence is ≥ 0.8, or
is ≥ 0.7 together with a success-indicating keyword in the observation. -/
theorem C5_done_verification (lastConf : ℚ) (verify : Option Nelieo.VerifyResult) :
    ((Nelieo.doneVerification lastConf verify).2 = false ↔ 9/10 < lastConf) ∧
    (9/10 < lastConf → (Nelieo.doneVerification lastConf verify).1 = true) ∧
    (¬ 9/10 < lastConf →
      ((Nelieo.doneVerification lastConf verify).1 = true ↔
        ∃ v, verify = some v ∧
          (8/10 ≤ v.confidence.getD 0 ∨
           (7/10 ≤ v.confidence.getD 0 ∧
             (Nelieo.success_keywords.any fun kw =>
               Nelieo.containsSub (Nelieo.lowerStr (v.observation.getD "")) kw)
               = true)))) := by
  unfold Nelieo.doneVerification
  by_cases hfast : 9/10 < lastConf
  · simp [hfast]
  · rw [if_neg hfast]
    cases verify with
    | none => simp [hfast]
    | some v =>
      by_cases h8 : 8/10 ≤ v.confidence.getD 0
      · simp [hfast, h8]
      · by_cases h7 : 7/10 ≤ v.confidence.getD 0
        · by_cases hkw : (Nelieo.success_keywords.any fun kw =>
              Nelieo.containsSub (Nelieo.lowerStr (v.observation.getD "")) kw) = true
          · simp [hfast, h8, h7, hkw]
            exact List.any_eq_true.mp hkw
          · have hkwf : (Nelieo.success_keywords.any fun kw =>
                Nelieo.containsSub (Nelieo.lowerStr (v.observation.getD "")) kw)
                = false := Bool.eq_false_iff.mpr hkw
            simp [hfast, h8, h7, hkwf]
            exact fun x hx => Bool.eq_false_iff.mpr (List.any_eq_false.mp hkwf x hx)
        · simp [hfast, h8, h7]

/-- C5 witness: confidence 0.5 on the last action forces the second oracle
call, and a verification reply of confidence 0.85 is accepted. -/
theorem C5_witness :
    ¬ (9/10 : ℚ) < 1/2 ∧
    ((Nelieo.doneVerification (1/2)
        (some { confidence := some (17/20), observation := some "Page loaded" })).1
        = true ↔
      ∃ v, (some { confidence := some (17/20), observation := some "Page loaded" }
              : Option Nelieo.VerifyResult) = some v ∧
        (8/10 ≤ v.confidence.getD 0 ∨
         (7/10 ≤ v.confidence.getD 0 ∧
           (Nelieo.success_keywords.any fun kw =>
             Nelieo.containsSub (Nelieo.lowerStr (v.observation.getD "")) kw)
             = true))) :=
  ⟨by norm_num,
   (C5_done_verification (1/2)
     (some { confidence := some (17/20), observation := some "Page loaded" })).2.2
     (by norm_num)⟩

/-- C9 witness: a two-step plan with cursor 0, after one `next_step` call. -/
theorem C9_witness :
    (let p : Nelieo.Plan :=
       { goal := "open mail then open calendar",
         level := Nelieo.PlanLevel.strategic,
         steps := ["open mail", "open calendar"] }
     p.current_step ≤ p.steps.length ∧
       ((Nelieo.Plan.iterate p 1).current_step
           ≤ (Nelieo.Plan.iterate p 2).current_step ∧
        (Nelieo.Plan.iterate p 1).steps = p.steps ∧
        ((Nelieo.Plan.iterate p 1).is_complete = true ↔
           (Nelieo.Plan.iterate p 1).current_step = p.steps.length))) :=
  ⟨by decide,
   C9_plan_cursor
     { goal := "open mail then open calendar",
       level := Nelieo.PlanLevel.strategic,
       steps := ["open mail", "open calendar"] } 1 (by decide)⟩
